import Mathlib

/-!
Verification of the options-analytics pipeline of `streamlit_app.py`
(`get_options_data`, `compute_greeks`, `calculate_leverage`,
`add_greeks_to_options_data`, `calculate_call_put_ratio`,
`calculate_monthly_call_put_ratios`, `compute_volatility_surface_plotly`).

Python floats are modelled by `ℚ` for ordinary arithmetic, together with an
explicit value type `FVal` at the points where the code can produce the IEEE
specials `inf`, `-inf`, `NaN` (float division with a zero denominator, and
pandas missing values).  The transcendental library routines the code calls
(`np.log`, `np.sqrt`, `np.exp`, `scipy.stats.norm.cdf/pdf`,
`scipy.interpolate.griddata`, `scipy.ndimage.gaussian_filter`) are external
collaborators and are abstracted as function parameters (`Prims`, `NumLib`);
the embedding states exactly how the code composes them.

A pandas `DataFrame` is modelled as a `Table`: its row contents plus the list
of column names that enrichment steps have appended in place (`extraCols`),
so that in-place mutation of the caller's frame is observable.
-/

/-- The transcendental primitives `compute_greeks` calls:
`np.log`, `np.sqrt`, `np.exp`, `si.norm.cdf(·,0,1)`, `si.norm.pdf(·,0,1)`. -/
structure Prims where
  log : ℚ → ℚ
  sqrt : ℚ → ℚ
  exp : ℚ → ℚ
  cdf : ℚ → ℚ
  pdf : ℚ → ℚ

/-- The dictionary returned by `compute_greeks`. -/
structure Greeks where
  delta : ℚ
  gamma : ℚ
  theta : ℚ
  vega : ℚ
  rho : ℚ
  deriving DecidableEq

/-- `compute_greeks(S, K, T, r, sigma, option_type)` (streamlit_app.py lines
97-127).  The `if/elif` chain assigns `delta`, `theta`, `rho` only for the
exact strings "call" and "put"; any other `option_type` reaches the final
`return` with `delta` unbound and raises `UnboundLocalError`, modelled as
`Except.error ()`. -/
def compute_greeks (P : Prims) (S K T r sigma : ℚ) (option_type : String) :
    Except Unit Greeks :=
  let d1 := (P.log (S / K) + (r + 1 / 2 * sigma ^ 2) * T) / (sigma * P.sqrt T)
  let d2 := d1 - sigma * P.sqrt T
  let gamma := P.pdf d1 / (S * sigma * P.sqrt T)
  let vega := S * P.pdf d1 * P.sqrt T / 100
  if option_type = "call" then
    Except.ok
      ⟨P.cdf d1, gamma,
        (-S * P.pdf d1 * sigma / (2 * P.sqrt T) -
          r * K * P.exp (-r * T) * P.cdf d2) / 365,
        vega, K * T * P.exp (-r * T) * P.cdf d2 / 100⟩
  else if option_type = "put" then
    Except.ok
      ⟨-P.cdf (-d1), gamma,
        (-S * P.pdf d1 * sigma / (2 * P.sqrt T) +
          r * K * P.exp (-r * T) * P.cdf (-d2)) / 365,
        vega, -(K * T * P.exp (-r * T) * P.cdf (-d2)) / 100⟩
  else Except.error ()

/-- Modelled from the spec's Black-Scholes formulas (spec §4.3), to be compared
with `compute_greeks`: `d1 = (ln(S/K) + (r + σ²/2)T)/(σ√T)`, `d2 = d1 − σ√T`,
call `delta = Φ(d1)`, `theta = (−Sφ(d1)σ/(2√T) − rKe^{−rT}Φ(d2))/365`,
`rho = KTe^{−rT}Φ(d2)/100`; put `delta = −Φ(−d1)`,
`theta = (−Sφ(d1)σ/(2√T) + rKe^{−rT}Φ(−d2))/365`, `rho = −KTe^{−rT}Φ(−d2)/100`;
both `gamma = φ(d1)/(Sσ√T)`, `vega = Sφ(d1)√T/100`. -/
def bsGreeksSpec (P : Prims) (S K T r sigma : ℚ) (isCall : Bool) : Greeks :=
  let d1 := (P.log (S / K) + (r + sigma ^ 2 / 2) * T) / (sigma * P.sqrt T)
  let d2 := d1 - sigma * P.sqrt T
  if isCall then
    ⟨P.cdf d1, P.pdf d1 / (S * sigma * P.sqrt T),
      (-S * P.pdf d1 * sigma / (2 * P.sqrt T) -
        r * K * P.exp (-r * T) * P.cdf d2) / 365,
      S * P.pdf d1 * P.sqrt T / 100,
      K * T * P.exp (-r * T) * P.cdf d2 / 100⟩
  else
    ⟨-P.cdf (-d1), P.pdf d1 / (S * sigma * P.sqrt T),
      (-S * P.pdf d1 * sigma / (2 * P.sqrt T) +
        r * K * P.exp (-r * T) * P.cdf (-d2)) / 365,
      S * P.pdf d1 * P.sqrt T / 100,
      -(K * T * P.exp (-r * T) * P.cdf (-d2)) / 100⟩

/-- A concrete instance of the primitives, used by witnesses. -/
def prims0 : Prims := ⟨id, id, id, id, id⟩

/-- C2: for all inputs with S > 0, K > 0, T > 0, sigma > 0, `compute_greeks`
returns exactly the Black-Scholes values of the spec, for calls and for puts. -/
theorem C2_compute_greeks_black_scholes (P : Prims) (S K T r sigma : ℚ)
    (hS : 0 < S) (hK : 0 < K) (hT : 0 < T) (hsig : 0 < sigma) :
    compute_greeks P S K T r sigma "call" =
      Except.ok (bsGreeksSpec P S K T r sigma true) ∧
    compute_greeks P S K T r sigma "put" =
      Except.ok (bsGreeksSpec P S K T r sigma false) := by
  have h : (P.log (S / K) + (r + 1 / 2 * sigma ^ 2) * T) / (sigma * P.sqrt T) =
      (P.log (S / K) + (r + sigma ^ 2 / 2) * T) / (sigma * P.sqrt T) := by
    ring
  constructor
  · simp only [compute_greeks, bsGreeksSpec, h]
    rfl
  · simp only [compute_greeks, bsGreeksSpec, h]
    rfl

/-- C2 witness: the theorem instantiated at S = K = T = sigma = 1, r = 0. -/
theorem C2_compute_greeks_black_scholes_witness :
    compute_greeks prims0 1 1 1 0 1 "call" =
      Except.ok (bsGreeksSpec prims0 1 1 1 0 1 true) ∧
    compute_greeks prims0 1 1 1 0 1 "put" =
      Except.ok (bsGreeksSpec prims0 1 1 1 0 1 false) :=
  C2_compute_greeks_black_scholes prims0 1 1 1 0 1
    one_pos one_pos one_pos one_pos

/-- C10: for any option-type string other than exactly "call" or "put" (the
comparison is case-sensitive), `compute_greeks` raises instead of returning a
Greeks record. -/
theorem C10_compute_greeks_bad_type_raises (P : Prims) (S K T r sigma : ℚ)
    (ty : String) (hS : 0 < S) (hK : 0 < K) (hT : 0 < T) (hsig : 0 < sigma)
    (hc : ty ≠ "call") (hp : ty ≠ "put") :
    compute_greeks P S K T r sigma ty = Except.error () := by
  simp only [compute_greeks, if_neg hc, if_neg hp]

/-- C10 witness: the capitalised string "Call" raises. -/
theorem C10_compute_greeks_bad_type_raises_witness :
    compute_greeks prims0 1 1 1 0 1 "Call" = Except.error () :=
  C10_compute_greeks_bad_type_raises prims0 1 1 1 0 1 "Call"
    one_pos one_pos one_pos one_pos (by decide) (by decide)

/-- A Python float value at the points where the code can produce the IEEE
specials: finite, +inf, -inf or NaN. -/
inductive FVal where
  | fin (q : ℚ)
  | inf
  | ninf
  | nan
  deriving DecidableEq

/-- IEEE float division on two present values, as numpy/pandas perform it:
a zero denominator silently yields +inf, -inf or NaN instead of raising. -/
def fdivQ (a b : ℚ) : FVal :=
  if b = 0 then (if a = 0 then FVal.nan else if 0 < a then FVal.inf else FVal.ninf)
  else FVal.fin (a / b)

/-- Float division where either operand may be a pandas missing value (NaN),
as produced by `unstack`: any NaN operand yields NaN. -/
def fdivF : Option ℚ → Option ℚ → FVal
  | some a, some b => fdivQ a b
  | _, _ => FVal.nan

/-- One row of the canonical options table built by `get_options_data`:
the provider fields the analytics read, plus the normalizer-computed columns
`Time to Expiration` (`tte`), `Type` (`type`, `none` being pandas NaN) and the
expiration date.  The date appears through its two projections the code uses:
`expDay` (day index, for the `Timedelta` subtraction of line 78) and
`expMonth` (calendar (year, month), for `to_period('M')` of line 179). -/
structure Row where
  contractSymbol : List Char
  strike : ℚ
  lastPrice : ℚ
  impliedVolatility : ℚ
  volume : ℚ
  expDay : ℤ
  expMonth : ℤ × ℤ
  tte : ℚ
  type : Option String
  deriving DecidableEq

/-- A pandas DataFrame as the callers see it: row contents plus the names of
the columns that enrichment steps have appended in place, so that in-place
mutation of the caller's frame is observable. -/
structure Table (α : Type) where
  rows : List α
  extraCols : List String
  deriving DecidableEq

/-- In-place column assignment `df[name] = ...`: records the new column name
on the caller's frame (row contents of the existing columns are untouched). -/
def addColumn {α : Type} (name : String) (t : Table α) : Table α :=
  if name ∈ t.extraCols then t else Table.mk t.rows (t.extraCols ++ [name])

/-- A row of the Greeks-enriched table (`add_greeks_to_options_data` output):
the canonical row joined with its Greeks record. -/
structure ERow where
  base : Row
  delta : ℚ
  gamma : ℚ
  theta : ℚ
  vega : ℚ
  rho : ℚ
  deriving DecidableEq

/-- `(pd.to_datetime(expiration) - pd.Timestamp.today()).days / 365`
(lines 78-79): the evaluation instant `now` is in seconds, the expiration
parses to midnight of day `expDay`; `Timedelta.days` floors towards minus
infinity (`Int.ediv` by 86400, the seconds of a day). -/
def tteOf (now : ℤ) (expDay : ℤ) : ℚ :=
  (((expDay * 86400 - now).ediv 86400 : ℤ) : ℚ) / 365

/-- The calendar day an instant (in seconds) falls on. -/
def evalDay (now : ℤ) : ℤ := now.ediv 86400

/-- Lexicographic order on Python strings (code-point comparison), as pandas
compares the `Type` column values "Call" and "Put". -/
def strLeb : List Char → List Char → Bool
  | [], _ => true
  | _ :: _, [] => false
  | a :: as, b :: bs => if a < b then true else if b < a then false else strLeb as bs

/-- Sort key order for the `Type` column: strings lexicographically, pandas
NaN (a row whose type failed to decode) last. -/
def typeLEb : Option String → Option String → Bool
  | some s, some t => strLeb s.data t.data
  | some _, none => true
  | none, some _ => false
  | none, none => true

/-- The row order of `sort_values(by=["strike", "Time to Expiration", "Type"])`
(line 81): strike ascending, then time to expiration ascending, then type. -/
def rowle (a b : Row) : Prop :=
  a.strike < b.strike ∨
    (a.strike = b.strike ∧
      (a.tte < b.tte ∨ (a.tte = b.tte ∧ typeLEb a.type b.type = true)))

instance : DecidableRel rowle := fun a b => by
  unfold rowle
  infer_instance

/-- Index of the first occurrence of `sep` in `s`, or `none` — the position at
which Python's `str.split` cuts first. -/
def findSub (sep s : List Char) : Option ℕ :=
  (List.range (s.length + 1)).find? (fun i => sep.isPrefixOf (s.drop i))

/-- Fuel-driven worker for `pySplit`; `s.length + 1` fuel always suffices for
a non-empty separator. -/
def pySplitAux : ℕ → List Char → List Char → List (List Char)
  | 0, _, s => [s]
  | fuel + 1, sep, s =>
    match findSub sep s with
    | none => [s]
    | some i => s.take i :: pySplitAux fuel sep (s.drop (i + sep.length))

/-- Python's `x.split(ticker)`: the segments of `x` between occurrences of the
(non-empty) separator. -/
def pySplit (sep s : List Char) : List (List Char) :=
  pySplitAux (s.length + 1) sep s

/-- The text between the first occurrence of `sep` in `s` and the following
occurrence (or the end), i.e. `x.split(sep)[1]` when it exists. -/
def segAfter (sep s : List Char) : Option (List Char) :=
  match findSub sep s with
  | none => none
  | some i =>
    let rest := s.drop (i + sep.length)
    some (match findSub sep rest with
      | none => rest
      | some j => rest.take j)

/-- `lambda x: x.split(ticker)[1][6]` (line 80): the character the code takes
as the contract-type code.  A missing `[1]` (ticker not in the identifier) or
a missing `[6]` (fewer than 7 characters in that segment) is an `IndexError`,
modelled as `Except.error ()`. -/
def classifyChar (ticker sym : List Char) : Except Unit Char :=
  match (pySplit ticker sym).get? 1 with
  | none => Except.error ()
  | some part =>
    match part.get? 6 with
    | none => Except.error ()
    | some c => Except.ok c

/-- Line 80 in full: the extracted character mapped through
`.map({"C": "Call", "P": "Put"})`.  pandas `.map` silently produces NaN
(`none`) for a key outside the dict; it never raises. -/
def classifyType (ticker sym : List Char) : Except Unit (Option String) :=
  (classifyChar ticker sym).map
    (fun c => if c = 'C' then some "Call" else if c = 'P' then some "Put" else none)

/-- One raw option-chain record as `yfinance` delivers it (a row of
`opt.calls` or `opt.puts`); `volume` may be missing. -/
structure RawRec where
  contractSymbol : List Char
  strike : ℚ
  lastPrice : ℚ
  impliedVolatility : ℚ
  volume : Option ℚ
  deriving DecidableEq

/-- An expiration date through the two projections the code uses: its day
index (for the `Timedelta` subtraction) and its calendar (year, month)
(for `to_period('M')`). -/
structure ExpDate where
  dayIdx : ℤ
  month : ℤ × ℤ
  deriving DecidableEq

/-- The canonical row built for one raw record (lines 75, 78-80, 82):
expiration attached, `Time to Expiration` from the shared evaluation instant
`now`, the classified type, and missing volume filled with 0.  The volume
fill happens after the sort in the code (line 82), but the sort keys do not
read `volume`, so filling first yields the same table. -/
def mkCanonRow (now : ℤ) (d : ExpDate) (r : RawRec) (ty : Option String) : Row :=
  Row.mk r.contractSymbol r.strike r.lastPrice r.impliedVolatility
    (r.volume.getD 0) d.dayIdx d.month (tteOf now d.dayIdx) ty

/-- Elementwise application over a list that stops at the first failure, as
pandas `Series.apply` raises out of the whole call on the first bad record. -/
def mapME {α β : Type} (f : α → Except Unit β) : List α → Except Unit (List β)
  | [] => Except.ok []
  | a :: as =>
    match f a with
    | Except.error e => Except.error e
    | Except.ok b =>
      match mapME f as with
      | Except.error e => Except.error e
      | Except.ok bs => Except.ok (b :: bs)

/-- `get_options_data` (lines 67-95), the normalization pipeline on the
fetched per-expiration batches: concatenate `opt.calls ++ opt.puts` for each
expiration in order, attach the expiration date, compute
`Time to Expiration` from the single evaluation instant `now`, classify every
record via line 80 (`.apply` raises on the first record whose indexing fails,
failing the whole call), fill missing volume with 0, and sort by
(strike, Time to Expiration, Type).  The last-price fetch of lines 84-93 is
an external collaborator and is not part of the table. -/
def get_options_data (ticker : List Char) (now : ℤ)
    (batches : List (ExpDate × List RawRec × List RawRec)) :
    Except Unit (List Row) :=
  (mapME (fun dr =>
      (classifyType ticker dr.2.contractSymbol).map (mkCanonRow now dr.1 dr.2))
    (batches.flatMap (fun b => (b.2.1 ++ b.2.2).map (fun r => (b.1, r))))).map
    (fun rows => rows.insertionSort rowle)

theorem strLeb_total (a : List Char) : ∀ b, strLeb a b = true ∨ strLeb b a = true := by
  induction a with
  | nil => intro b; left; rfl
  | cons x xs ih =>
    intro b
    cases b with
    | nil => right; rfl
    | cons y ys =>
      rcases lt_trichotomy x y with h | h | h
      · left; simp [strLeb, h]
      · subst h
        rcases ih ys with h2 | h2
        · left; simp [strLeb, lt_irrefl, h2]
        · right; simp [strLeb, lt_irrefl, h2]
      · right; simp [strLeb, h]

theorem strLeb_trans (a : List Char) :
    ∀ b c, strLeb a b = true → strLeb b c = true → strLeb a c = true := by
  induction a with
  | nil => intro b c _ _; rfl
  | cons x xs ih =>
    intro b c hab hbc
    cases b with
    | nil => simp [strLeb] at hab
    | cons y ys =>
      cases c with
      | nil => simp [strLeb] at hbc
      | cons z zs =>
        rcases lt_trichotomy x y with hxy | hxy | hxy
        · rcases lt_trichotomy y z with hyz | hyz | hyz
          · simp [strLeb, lt_trans hxy hyz]
          · subst hyz; simp [strLeb, hxy]
          · simp [strLeb, asymm hyz, hyz] at hbc
        · subst hxy
          rcases lt_trichotomy x z with hyz | hyz | hyz
          · simp [strLeb, hyz]
          · subst hyz
            simp [strLeb, lt_irrefl] at hab hbc ⊢
            exact ih _ _ hab hbc
          · simp [strLeb, asymm hyz, hyz] at hbc
        · simp [strLeb, asymm hxy, hxy] at hab

theorem typeLEb_total (a b : Option String) :
    typeLEb a b = true ∨ typeLEb b a = true := by
  cases a with
  | none => cases b <;> simp [typeLEb]
  | some s =>
    cases b with
    | none => simp [typeLEb]
    | some t => exact strLeb_total s.data t.data

theorem typeLEb_trans (a b c : Option String) :
    typeLEb a b = true → typeLEb b c = true → typeLEb a c = true := by
  cases a with
  | none =>
    cases b with
    | none => cases c <;> simp [typeLEb]
    | some t => cases c <;> simp [typeLEb]
  | some s =>
    cases b with
    | none => cases c <;> simp [typeLEb]
    | some t =>
      cases c with
      | none => simp [typeLEb]
      | some u => exact strLeb_trans s.data t.data u.data

theorem rowle_total (a b : Row) : rowle a b ∨ rowle b a := by
  rcases lt_trichotomy a.strike b.strike with h | h | h
  · exact Or.inl (Or.inl h)
  · rcases lt_trichotomy a.tte b.tte with h2 | h2 | h2
    · exact Or.inl (Or.inr ⟨h, Or.inl h2⟩)
    · rcases typeLEb_total a.type b.type with h3 | h3
      · exact Or.inl (Or.inr ⟨h, Or.inr ⟨h2, h3⟩⟩)
      · exact Or.inr (Or.inr ⟨h.symm, Or.inr ⟨h2.symm, h3⟩⟩)
    · exact Or.inr (Or.inr ⟨h.symm, Or.inl h2⟩)
  · exact Or.inr (Or.inl h)

theorem rowle_trans (a b c : Row) : rowle a b → rowle b c → rowle a c := by
  intro hab hbc
  rcases hab with h1 | ⟨e1, h1⟩
  · rcases hbc with h2 | ⟨e2, h2⟩
    · exact Or.inl (lt_trans h1 h2)
    · exact Or.inl (by rw [← e2]; exact h1)
  · rcases hbc with h2 | ⟨e2, h2⟩
    · exact Or.inl (by rw [e1]; exact h2)
    · refine Or.inr ⟨e1.trans e2, ?_⟩
      rcases h1 with t1 | ⟨f1, t1⟩
      · rcases h2 with t2 | ⟨f2, t2⟩
        · exact Or.inl (lt_trans t1 t2)
        · exact Or.inl (by rw [← f2]; exact t1)
      · rcases h2 with t2 | ⟨f2, t2⟩
        · exact Or.inl (by rw [f1]; exact t2)
        · exact Or.inr ⟨f1.trans f2, typeLEb_trans _ _ _ t1 t2⟩

instance : IsTotal Row rowle := ⟨rowle_total⟩

instance : IsTrans Row rowle := ⟨rowle_trans⟩

theorem mapME_ok_mem {α β : Type} (f : α → Except Unit β) :
    ∀ (l : List α) (out : List β), mapME f l = Except.ok out →
      ∀ r ∈ out, ∃ x ∈ l, f x = Except.ok r := by
  intro l
  induction l with
  | nil =>
    intro out h r hr
    simp [mapME] at h
    subst h
    simp at hr
  | cons a as ih =>
    intro out h r hr
    unfold mapME at h
    cases hfa : f a with
    | error e => rw [hfa] at h; exact absurd h (by simp)
    | ok b =>
      rw [hfa] at h
      cases hmas : mapME f as with
      | error e => rw [hmas] at h; exact absurd h (by simp)
      | ok bs =>
        rw [hmas] at h
        simp at h
        subst h
        rcases List.mem_cons.mp hr with rfl | hr2
        · exact ⟨a, List.mem_cons_self a as, hfa⟩
        · rcases ih bs hmas r hr2 with ⟨x, hx, hfx⟩
          exact ⟨x, List.mem_cons_of_mem a hx, hfx⟩

theorem mapME_isOk {α β : Type} (f : α → Except Unit β) :
    ∀ l : List α, (mapME f l).isOk = l.all (fun x => (f x).isOk) := by
  intro l
  induction l with
  | nil => rfl
  | cons a as ih =>
    rw [List.all_cons]
    unfold mapME
    cases hfa : f a with
    | error e => simp [Except.isOk, Except.toBool]
    | ok b =>
      cases hmas : mapME f as with
      | error e =>
        rw [hmas] at ih
        simp only [Except.isOk, Except.toBool, Bool.true_and] at ih ⊢
        exact ih
      | ok bs =>
        rw [hmas] at ih
        simp only [Except.isOk, Except.toBool, Bool.true_and] at ih ⊢
        exact ih

/-- C1: every canonical table `get_options_data` returns is sorted by
(strike ascending, time to expiration ascending, type), and at equal
(strike, time to expiration) a Call row is ordered strictly before a Put row
— whatever the order of the input records. -/
theorem C1_canonical_table_sorted :
    (∀ (ticker : List Char) (now : ℤ)
        (batches : List (ExpDate × List RawRec × List RawRec)),
      ((get_options_data ticker now batches).toOption.getD []).Pairwise rowle) ∧
    (∀ a b : Row, a.strike = b.strike → a.tte = b.tte →
      a.type = some "Call" → b.type = some "Put" → rowle a b ∧ ¬ rowle b a) := by
  constructor
  · intro ticker now batches
    unfold get_options_data
    cases h : mapME (fun dr => (classifyType ticker dr.2.contractSymbol).map
        (mkCanonRow now dr.1 dr.2))
        (batches.flatMap (fun b => (b.2.1 ++ b.2.2).map (fun r => (b.1, r)))) with
    | error e => simp [Except.map, Except.toOption]
    | ok rows =>
      simp only [h, Except.map, Except.toOption, Option.getD]
      exact List.sorted_insertionSort rowle rows
  · intro a b hs ht hA hB
    constructor
    · exact Or.inr ⟨hs, Or.inr ⟨ht, by rw [hA, hB]; decide⟩⟩
    · intro hba
      rcases hba with h | ⟨_, h | ⟨_, h⟩⟩
      · exact absurd h (by rw [hs]; exact lt_irrefl _)
      · exact absurd h (by rw [ht]; exact lt_irrefl _)
      · rw [hA, hB] at h
        revert h
        decide

theorem ediv_day_nonneg_iff (x : ℤ) : 0 ≤ x.ediv 86400 ↔ 0 ≤ x := by
  constructor
  · intro h
    have hm : 0 ≤ x % 86400 := Int.emod_nonneg _ (by norm_num)
    have hx := Int.ediv_add_emod x 86400
    have hp : (0:ℤ) ≤ 86400 * (x / 86400) := by positivity
    linarith
  · intro h
    exact Int.ediv_nonneg h (by norm_num)

theorem ediv_day_eq_zero_iff (x : ℤ) : x.ediv 86400 = 0 ↔ 0 ≤ x ∧ x < 86400 := by
  constructor
  · intro h
    have hm : 0 ≤ x % 86400 := Int.emod_nonneg _ (by norm_num)
    have hm2 : x % 86400 < 86400 := Int.emod_lt_of_pos _ (by norm_num)
    have hx := Int.ediv_add_emod x 86400
    constructor
    · have : (86400:ℤ) * (x / 86400) = 0 := by
        rw [show x / 86400 = x.ediv 86400 from rfl, h, mul_zero]
      linarith
    · have : (86400:ℤ) * (x / 86400) = 0 := by
        rw [show x / 86400 = x.ediv 86400 from rfl, h, mul_zero]
      linarith
  · intro ⟨h1, h2⟩
    exact Int.ediv_eq_zero_of_lt h1 h2

/-- C3 amended: `Time to Expiration` is `(expiration midnight − evaluation
instant).days / 365` with `.days` flooring, all rows of one normalization call
sharing the single evaluation instant.  It is non-negative iff the instant is
not past the expiration's midnight (so it is -1/365 for a contract expiring on
the evaluation day once the instant is past midnight), it is zero iff the
expiration's midnight falls within the 24 hours at or after the instant (for
an instant strictly past midnight: iff the expiration is the NEXT calendar
day), and it is monotone in the expiration date. -/
theorem C3_time_to_expiration_amended (now d d' : ℤ) (ticker : List Char)
    (batches : List (ExpDate × List RawRec × List RawRec)) (tbl : List Row)
    (r : Row) :
    (0 ≤ tteOf now d ↔ now ≤ d * 86400) ∧
    (tteOf now d = 0 ↔ now ≤ d * 86400 ∧ d * 86400 < now + 86400) ∧
    (d ≤ d' → tteOf now d ≤ tteOf now d') ∧
    (get_options_data ticker now batches = Except.ok tbl → r ∈ tbl →
      r.tte = tteOf now r.expDay) := by
  refine ⟨?_, ?_, ?_, ?_⟩
  · unfold tteOf
    rw [le_div_iff₀ (by norm_num : (0:ℚ) < 365), zero_mul]
    rw [show ((0:ℚ) ≤ ((d * 86400 - now).ediv 86400 : ℤ)) ↔
        (0 ≤ (d * 86400 - now).ediv 86400) from Int.cast_nonneg]
    rw [ediv_day_nonneg_iff]
    omega
  · unfold tteOf
    rw [div_eq_zero_iff]
    have h365 : ((365:ℚ) ≠ 0) := by norm_num
    simp only [h365, or_false, Int.cast_eq_zero]
    rw [ediv_day_eq_zero_iff]
    omega
  · intro hdd
    unfold tteOf
    have h1 : (d * 86400 - now) ≤ (d' * 86400 - now) := by nlinarith
    have h2 : (d * 86400 - now).ediv 86400 ≤ (d' * 86400 - now).ediv 86400 :=
      Int.ediv_le_ediv (by norm_num) h1
    have h3 : (((d * 86400 - now).ediv 86400 : ℤ) : ℚ) ≤
        (((d' * 86400 - now).ediv 86400 : ℤ) : ℚ) := Int.cast_le.mpr h2
    exact div_le_div_of_nonneg_right h3 (by norm_num) |>.trans_eq rfl
  · intro h hr
    unfold get_options_data at h
    cases hm : mapME (fun dr => (classifyType ticker dr.2.contractSymbol).map
        (mkCanonRow now dr.1 dr.2))
        (batches.flatMap (fun b => (b.2.1 ++ b.2.2).map (fun r => (b.1, r)))) with
    | error e => rw [hm] at h; exact absurd h (by simp [Except.map])
    | ok rows =>
      rw [hm] at h
      simp only [Except.map, Except.ok.injEq] at h
      subst h
      have hr2 : r ∈ rows := (List.perm_insertionSort rowle rows).mem_iff.mp hr
      rcases mapME_ok_mem _ _ _ hm r hr2 with ⟨x, _, hfx⟩
      cases hcx : classifyType ticker x.2.contractSymbol with
      | error e => rw [hcx] at hfx; exact absurd hfx (by simp [Except.map])
      | ok ty =>
        rw [hcx] at hfx
        simp only [Except.map, Except.ok.injEq] at hfx
        subst hfx
        rfl

/-- C3 counterexample: at the evaluation instant 600 seconds past midnight of
day 0, a contract expiring on day 0 (the evaluation day itself) gets
`Time to Expiration` = -1/365 < 0, and a contract expiring on day 1 (not the
evaluation day) gets exactly 0 — refuting both the non-negativity claim and
the "zero only on the evaluation day" claim. -/
theorem C3_time_to_expiration_counterexample :
    tteOf 600 0 < 0 ∧ evalDay 600 = 0 ∧ tteOf 600 1 = 0 ∧ (1 : ℤ) ≠ evalDay 600 := by
  refine ⟨?_, by decide, ?_, by decide⟩
  · have h : ((0 * 86400 - 600 : ℤ)).ediv 86400 = -1 := by decide
    unfold tteOf
    rw [h]
    norm_num
  · have h : ((1 * 86400 - 600 : ℤ)).ediv 86400 = 0 := by decide
    unfold tteOf
    rw [h]
    norm_num

theorem except_map_isOk {α β : Type} (g : α → β) (e : Except Unit α) :
    (e.map g).isOk = e.isOk := by
  cases e <;> rfl

theorem classifyType_isOk (ticker sym : List Char) :
    (classifyType ticker sym).isOk = (classifyChar ticker sym).isOk := by
  unfold classifyType
  exact except_map_isOk _ _

theorem findSub_some_ne_nil {sep s : List Char} {i : ℕ} (hsep : sep ≠ [])
    (h : findSub sep s = some i) : s ≠ [] := by
  intro hs
  subst hs
  cases sep with
  | nil => exact hsep rfl
  | cons a as =>
    rw [show findSub (a :: as) ([] : List Char) = none from rfl] at h
    exact Option.noConfusion h

theorem pySplitAux_head (sep s : List Char) (fuel : ℕ) :
    (pySplitAux (fuel + 1) sep s).head? = some (match findSub sep s with
      | none => s
      | some j => s.take j) := by
  unfold pySplitAux
  cases h : findSub sep s <;> simp

theorem pySplit_get1 (sep s : List Char) (hsep : sep ≠ []) :
    (pySplit sep s).get? 1 = segAfter sep s := by
  unfold pySplit segAfter
  cases h : findSub sep s with
  | none => simp [pySplitAux, h]
  | some i =>
    have hs : s ≠ [] := findSub_some_ne_nil hsep h
    obtain ⟨n, hn⟩ : ∃ n, s.length = n + 1 := by
      cases s with
      | nil => exact absurd rfl hs
      | cons a as => exact ⟨as.length, rfl⟩
    rw [hn]
    unfold pySplitAux
    simp only [h]
    rw [List.get?_cons_succ, List.get?_zero]
    rw [pySplitAux_head]

theorem classifyChar_isOk_iff (sep s : List Char) (hsep : sep ≠ []) :
    (classifyChar sep s).isOk = true ↔
      ∃ p, segAfter sep s = some p ∧ 7 ≤ p.length := by
  unfold classifyChar
  rw [pySplit_get1 sep s hsep]
  cases h : segAfter sep s with
  | none => simp [Except.isOk, Except.toBool]
  | some p =>
    simp only [Option.some.injEq]
    cases hp : p.get? 6 with
    | none =>
      have hlen : p.length ≤ 6 := List.get?_eq_none.mp hp
      simp [Except.isOk, Except.toBool]
      omega
    | some ch =>
      have hlen : ¬ p.length ≤ 6 := by
        intro hle
        rw [List.get?_eq_none.mpr hle] at hp
        cases hp
      simp [Except.isOk, Except.toBool]
      omega

/-- C4 amended: normalization fails (with an IndexError out of line 80's
`.apply`) iff some record's identifier either does not contain the ticker at
all, or has fewer than 7 characters between the first occurrence of the
ticker and the next (so `[1][6]` is out of range) — the ticker occurring
somewhere other than the prefix position is accepted, not rejected.  When the
character at index 6 of that segment is neither 'C' nor 'P', the row's type
is silently set to pandas NaN by `.map` and the call still succeeds. -/
theorem C4_malformed_identifier_amended (c : Char) (tk : List Char) (now : ℤ)
    (batches : List (ExpDate × List RawRec × List RawRec)) (sym : List Char)
    (ch : Char) :
    ((get_options_data (c :: tk) now batches).isOk = false ↔
      ∃ b ∈ batches, ∃ rec ∈ b.2.1 ++ b.2.2,
        ∀ p, segAfter (c :: tk) rec.contractSymbol = some p → p.length < 7) ∧
    (classifyChar (c :: tk) sym = Except.ok ch → ch ≠ 'C' → ch ≠ 'P' →
      classifyType (c :: tk) sym = Except.ok none) := by
  have hsep : (c :: tk) ≠ ([] : List Char) := by simp
  constructor
  · unfold get_options_data
    rw [except_map_isOk, mapME_isOk]
    have hrow : ∀ x : ExpDate × RawRec,
        ((((classifyType (c :: tk) x.2.contractSymbol).map
            (mkCanonRow now x.1 x.2)).isOk = false) ↔
          ∀ p, segAfter (c :: tk) x.2.contractSymbol = some p → p.length < 7) := by
      intro x
      rw [except_map_isOk, classifyType_isOk, Bool.eq_false_iff, Ne,
        classifyChar_isOk_iff _ _ hsep]
      push_neg
      rfl
    rw [Bool.eq_false_iff, Ne, List.all_eq_true]
    push_neg
    constructor
    · rintro ⟨x, hx, hq⟩
      rcases List.mem_flatMap.mp hx with ⟨b, hb, hxb⟩
      rcases List.mem_map.mp hxb with ⟨rec, hrec, rfl⟩
      refine ⟨b, hb, rec, hrec, ?_⟩
      exact (hrow (b.1, rec)).mp (by rw [← Bool.not_eq_true]; exact hq)
    · rintro ⟨b, hb, rec, hrec, hq⟩
      refine ⟨(b.1, rec),
        List.mem_flatMap.mpr ⟨b, hb, List.mem_map.mpr ⟨rec, hrec, rfl⟩⟩, ?_⟩
      intro htrue
      have hfalse := (hrow (b.1, rec)).mpr hq
      rw [htrue] at hfalse
      cases hfalse
  · intro hok hC hP
    unfold classifyType
    rw [hok]
    simp [Except.map, hC, hP]

/-- The ticker "AAPL" as a character list. -/
def tkAAPL : List Char := ['A', 'A', 'P', 'L']

/-- "AAPL241220X00150000": well-formed layout but the type character is 'X',
neither 'C' nor 'P'. -/
def symBadType : List Char :=
  ['A', 'A', 'P', 'L', '2', '4', '1', '2', '2', '0', 'X',
   '0', '0', '1', '5', '0', '0', '0', '0']

/-- "XAAPL241220C00150000": the ticker occurs, but not as a prefix segment in
the expected position. -/
def symShifted : List Char :=
  ['X', 'A', 'A', 'P', 'L', '2', '4', '1', '2', '2', '0', 'C',
   '0', '0', '1', '5', '0', '0', '0', '0']

/-- A raw record with the bad type character. -/
def rawBadType : RawRec := RawRec.mk symBadType 100 1 1 (some 10)

/-- A raw record whose identifier has the ticker off the prefix position. -/
def rawShifted : RawRec := RawRec.mk symShifted 100 1 1 (some 10)

/-- Some expiration date. -/
def dateDec24 : ExpDate := ExpDate.mk 0 (2024, 12)

/-- C4 counterexample: a chain containing the malformed record
"AAPL241220X00150000" (type character 'X') does NOT fail normalization — the
call succeeds and the row's type is silently NaN; likewise,
"XAAPL241220C00150000" (ticker not in prefix position) is accepted. -/
theorem C4_malformed_identifier_counterexample :
    (get_options_data tkAAPL 0 [(dateDec24, [rawBadType], [])]).isOk = true ∧
    ((get_options_data tkAAPL 0
        [(dateDec24, [rawBadType], [])]).toOption.getD []).map Row.type =
      [none] ∧
    (get_options_data tkAAPL 0 [(dateDec24, [rawShifted], [])]).isOk = true := by
  exact ⟨by decide, by decide, by decide⟩

/-- `options_data[options_data['Type'] == ty]['volume'].sum()`
(lines 172-173): total volume over the rows of one type. -/
def sumVolType (ty : String) (rows : List Row) : ℚ :=
  ((rows.filter (fun r => r.type == some ty)).map Row.volume).sum

/-- `calculate_call_put_ratio` (lines 171-175): total call volume, total put
volume, and their ratio guarded by `if total_puts != 0 else float('inf')`.
The function only reads the frame, so the caller's table comes back
unchanged; it is total — no arithmetic exception is possible. -/
def calculate_call_put_ratio (t : Table Row) : Table Row × (FVal × ℚ × ℚ) :=
  let total_calls := sumVolType "Call" t.rows
  let total_puts := sumVolType "Put" t.rows
  (t,
    (if total_puts ≠ 0 then FVal.fin (total_calls / total_puts) else FVal.inf,
     total_calls, total_puts))

/-- Chronological order on (year, month) pairs, the order of the pandas
`Period('M')` index produced by `groupby(...).unstack`. -/
def monthle (a b : ℤ × ℤ) : Prop := a.1 < b.1 ∨ (a.1 = b.1 ∧ a.2 ≤ b.2)

instance : DecidableRel monthle := fun a b => by
  unfold monthle
  infer_instance

/-- Strictly earlier calendar month. -/
def monthlt (a b : ℤ × ℤ) : Prop := a.1 < b.1 ∨ (a.1 = b.1 ∧ a.2 < b.2)

instance : IsTotal (ℤ × ℤ) monthle :=
  ⟨fun a b => by
    unfold monthle
    rcases lt_trichotomy a.1 b.1 with h | h | h
    · exact Or.inl (Or.inl h)
    · rcases le_total a.2 b.2 with h2 | h2
      · exact Or.inl (Or.inr ⟨h, h2⟩)
      · exact Or.inr (Or.inr ⟨h.symm, h2⟩)
    · exact Or.inr (Or.inl h)⟩

instance : IsTrans (ℤ × ℤ) monthle :=
  ⟨fun a b c hab hbc => by
    unfold monthle at *
    rcases hab with h1 | ⟨e1, h1⟩
    · rcases hbc with h2 | ⟨e2, h2⟩
      · exact Or.inl (lt_trans h1 h2)
      · exact Or.inl (by rw [← e2]; exact h1)
    · rcases hbc with h2 | ⟨e2, h2⟩
      · exact Or.inl (by rw [e1]; exact h2)
      · exact Or.inr ⟨e1.trans e2, le_trans h1 h2⟩⟩

/-- The distinct expiration months of the classified rows, in chronological
order: `groupby(['Type', 'Month'])` drops rows whose type is NaN, and the
`unstack` month index comes out sorted. -/
def monthsOf (rows : List Row) : List (ℤ × ℤ) :=
  (((rows.filter (fun r => r.type.isSome)).map Row.expMonth).insertionSort
    monthle).dedup

/-- Whether the (type, month) group is present — i.e. whether the unstacked
frame has a value (rather than NaN) in that cell. -/
def hasCell (ty : String) (m : ℤ × ℤ) (rows : List Row) : Bool :=
  rows.any (fun r => r.type == some ty && r.expMonth == m)

/-- Total volume of the (type, month) group. -/
def volSum (ty : String) (m : ℤ × ℤ) (rows : List Row) : ℚ :=
  ((rows.filter (fun r => r.type == some ty && r.expMonth == m)).map
    Row.volume).sum

/-- A cell of `grouped['volume'].sum().unstack('Type')`: the group's total
volume if the group exists, pandas NaN otherwise. -/
def cellVal (ty : String) (m : ℤ × ℤ) (rows : List Row) : Option ℚ :=
  if hasCell ty m rows then some (volSum ty m rows) else none

/-- `calculate_monthly_call_put_ratios` (lines 177-186): line 179 assigns the
`Month` column on the caller's frame in place (before anything can fail);
`monthly_volumes['Call'] / monthly_volumes['Put']` is float division of the
unstacked columns, raising `KeyError` (`Except.error`) when the table has no
Call row at all or no Put row at all, and otherwise producing one value per
month present, NaN cells included. -/
def calculate_monthly_call_put_ratios (t : Table Row) :
    Table Row × Except Unit (List ((ℤ × ℤ) × FVal)) :=
  (addColumn "Month" t,
    if t.rows.any (fun r => r.type == some "Call") &&
        t.rows.any (fun r => r.type == some "Put") then
      Except.ok ((monthsOf t.rows).map (fun m =>
        (m, fdivF (cellVal "Call" m t.rows) (cellVal "Put" m t.rows))))
    else Except.error ())

/-- `calculate_leverage` (lines 129-142): line 141 assigns
`options_data['Leverage'] = options_data['delta'] * stock_price /
options_data['lastPrice']` on the caller's frame in place, under float
semantics (a zero `lastPrice` silently yields an IEEE special). -/
def calculate_leverage (t : Table ERow) (stock_price : ℚ) :
    Table ERow × List FVal :=
  (addColumn "Leverage" t,
    t.rows.map (fun r => fdivQ (r.delta * stock_price) r.base.lastPrice))

/-- Python `str.lower`, as used in `row['Type'].lower()` (line 164). -/
def pyLower (s : String) : String := String.mk (s.data.map Char.toLower)

/-- `add_greeks_to_options_data` (lines 144-169): per-row `compute_greeks`
with the shared stock price and risk-free rate, joined positionally by
`pd.concat(..., axis=1)` into a NEW frame; the caller's frame is only read.
A row with NaN type raises (`.lower()` on a float). -/
def add_greeks_to_options_data (P : Prims) (t : Table Row)
    (stock_price risk_free_rate : ℚ) :
    Table Row × Except Unit (Table ERow) :=
  (t,
    (mapME (fun row =>
        match row.type with
        | none => Except.error ()
        | some ty =>
          (compute_greeks P stock_price row.strike row.tte risk_free_rate
            row.impliedVolatility (pyLower ty)).map
            (fun g => ERow.mk row g.delta g.gamma g.theta g.vega g.rho))
      t.rows).map (fun rs => Table.mk rs t.extraCols))

/-- The `method=` argument of `scipy.interpolate.griddata`. -/
inductive InterpMethod where
  | cubic
  | linear
  | nearest
  deriving DecidableEq

/-- The numerical collaborators of `compute_volatility_surface_plotly`:
`np.log`, `scipy.interpolate.griddata` (scattered x, y, values, grid
matrices, method) and `scipy.ndimage.gaussian_filter` (grid, sigma). -/
structure NumLib where
  log : ℚ → ℚ
  griddata : List ℚ → List ℚ → List ℚ → List (List ℚ) → List (List ℚ) →
    InterpMethod → List (List ℚ)
  gaussian_filter : List (List ℚ) → ℚ → List (List ℚ)

/-- `np.linspace(a, b, n)` with its default endpoint=True. -/
def linspace (a b : ℚ) (n : ℕ) : List ℚ :=
  (List.range n).map (fun (i : ℕ) => a + (b - a) * (i : ℚ) / ((n : ℚ) - 1))

/-- First matrix of `np.meshgrid(xs, ys)`: one copy of `xs` per y value. -/
def meshgridX (xs ys : List ℚ) : List (List ℚ) := ys.map (fun _ => xs)

/-- Second matrix of `np.meshgrid(xs, ys)`: row j constant at `ys[j]`. -/
def meshgridY (xs ys : List ℚ) : List (List ℚ) :=
  ys.map (fun yj => xs.map (fun _ => yj))

/-- `Series.min()` on a non-empty series (0 on an empty one). -/
def minList (l : List ℚ) : ℚ :=
  match l with
  | [] => 0
  | a :: t => t.foldl min a

/-- `Series.max()` on a non-empty series (0 on an empty one). -/
def maxList (l : List ℚ) : ℚ :=
  match l with
  | [] => 0
  | a :: t => t.foldl max a

/-- The data `compute_volatility_surface_plotly` hands to the renderer:
the two grid axes, the meshgrid matrices, and the smoothed value matrix. -/
structure Surface where
  xi : List ℚ
  yi : List ℚ
  gx : List (List ℚ)
  gy : List (List ℚ)
  gz : List (List ℚ)

/-- `compute_volatility_surface_plotly` (lines 208-218): x is the rows'
`Time to Expiration`, y is `log(strike / current_price)`, z the implied
volatility; the x axis is `linspace(x.min(), x.max(), 100)` over the DATA,
the y axis is `linspace(log(min_strike/current_price),
log(max_strike/current_price), 100)` over the caller-supplied strike bounds
(module globals set by the UI sliders, here explicit parameters); the values
are `griddata(..., method='cubic')` on the meshgrid followed by
`gaussian_filter(zi, sigma=1)`.  The frame is only read. -/
def compute_volatility_surface_plotly (L : NumLib) (t : Table Row)
    (min_strike max_strike current_price : ℚ) : Table Row × Surface :=
  let x := t.rows.map Row.tte
  let y := t.rows.map (fun r => L.log (r.strike / current_price))
  let z := t.rows.map Row.impliedVolatility
  let xi := linspace (minList x) (maxList x) 100
  let yi := linspace (L.log (min_strike / current_price))
    (L.log (max_strike / current_price)) 100
  let gx := meshgridX xi yi
  let gy := meshgridY xi yi
  let zi := L.griddata x y z gx gy InterpMethod.cubic
  (t, Surface.mk xi yi gx gy (L.gaussian_filter zi 1))

theorem strCallNePut : ("Call" : String) ≠ "Put" := by decide

theorem strPutNeCall : ("Put" : String) ≠ "Call" := by decide

theorem beqCallPut : ((some "Call" : Option String) == some "Put") = false := by
  decide

theorem beqPutCall : ((some "Put" : Option String) == some "Call") = false := by
  decide

theorem beqCallCall : ((some "Call" : Option String) == some "Call") = true := by
  decide

theorem beqPutPut : ((some "Put" : Option String) == some "Put") = true := by
  decide

/-- A canonical Call row with the given volume (other fields immaterial). -/
def rowCall (v : ℚ) : Row := Row.mk [] 0 0 0 v 0 (0, 0) 0 (some "Call")

/-- A canonical Put row with the given volume. -/
def rowPut (v : ℚ) : Row := Row.mk [] 0 0 0 v 0 (0, 0) 0 (some "Put")

/-- A table with 300 call-volume and no put rows at all. -/
def tbl300 : Table Row := Table.mk [rowCall 300] []

/-- A table with 100 call-volume and 50 put-volume. -/
def tbl100x50 : Table Row := Table.mk [rowCall 100, rowPut 50] []

/-- C5: `calculate_call_put_ratio` returns the per-type volume sums and their
ratio; a positive put total gives the exact quotient, a zero put total gives
the `float('inf')` sentinel (the function is total: no exception).  On 300
call-volume / 0 put-volume it yields the sentinel; on 100/50 it yields
exactly 2. -/
theorem C5_call_put_ratio_aggregate :
    (∀ t : Table Row,
      (calculate_call_put_ratio t).2.2.1 = sumVolType "Call" t.rows ∧
      (calculate_call_put_ratio t).2.2.2 = sumVolType "Put" t.rows ∧
      (0 < sumVolType "Put" t.rows →
        (calculate_call_put_ratio t).2.1 =
          FVal.fin (sumVolType "Call" t.rows / sumVolType "Put" t.rows)) ∧
      (sumVolType "Put" t.rows = 0 →
        (calculate_call_put_ratio t).2.1 = FVal.inf)) ∧
    (calculate_call_put_ratio tbl300).2.1 = FVal.inf ∧
    (calculate_call_put_ratio tbl300).2.2.1 = 300 ∧
    (calculate_call_put_ratio tbl100x50).2.1 = FVal.fin 2 := by
  refine ⟨fun t => ⟨rfl, rfl, fun h => ?_, fun h => ?_⟩, ?_, ?_, ?_⟩
  · unfold calculate_call_put_ratio
    simp only [if_pos (ne_of_gt h)]
  · unfold calculate_call_put_ratio
    simp only [h, ne_eq, not_true_eq_false, if_false, ite_false]
  · norm_num [calculate_call_put_ratio, sumVolType, tbl300, rowCall,
      beqCallPut, beqCallCall, List.filter_cons, List.filter_nil,
      strCallNePut, strPutNeCall]
  · norm_num [calculate_call_put_ratio, sumVolType, tbl300, rowCall,
      beqCallPut, beqCallCall, List.filter_cons, List.filter_nil,
      strCallNePut, strPutNeCall]
  · norm_num [calculate_call_put_ratio, sumVolType, tbl100x50, rowCall,
      rowPut, beqCallPut, beqCallCall, beqPutPut, beqPutCall,
      List.filter_cons, List.filter_nil, strCallNePut, strPutNeCall]

theorem fdivF_none_right (x : Option ℚ) : fdivF x none = FVal.nan := by
  cases x <;> rfl

theorem fdivF_some_some (a b : ℚ) : fdivF (some a) (some b) = fdivQ a b := rfl

theorem map_pair_fst {α β : Type} (l : List α) (g : α → β) :
    (l.map (fun m => (m, g m))).map Prod.fst = l := by
  induction l with
  | nil => rfl
  | cons a t ih =>
    simp only [List.map_cons]
    rw [ih]

theorem mem_monthsOf (rows : List Row) (m : ℤ × ℤ) :
    m ∈ monthsOf rows ↔
      ∃ r ∈ rows, r.type.isSome = true ∧ r.expMonth = m := by
  unfold monthsOf
  rw [List.mem_dedup, (List.perm_insertionSort monthle _).mem_iff, List.mem_map]
  constructor
  · rintro ⟨r, hr, rfl⟩
    rw [List.mem_filter] at hr
    exact ⟨r, hr.1, hr.2, rfl⟩
  · rintro ⟨r, hr, hsome, rfl⟩
    exact ⟨r, List.mem_filter.mpr ⟨hr, hsome⟩, rfl⟩

theorem monthsOf_sorted (rows : List Row) : (monthsOf rows).Pairwise monthlt := by
  have hs : ((((rows.filter (fun r => r.type.isSome)).map
      Row.expMonth).insertionSort monthle)).Pairwise monthle :=
    List.sorted_insertionSort monthle _
  have hle : (monthsOf rows).Pairwise monthle :=
    List.Pairwise.sublist (List.dedup_sublist _) hs
  have hnd : (monthsOf rows).Nodup := List.nodup_dedup _
  refine List.Pairwise.imp ?_ (hle.and hnd)
  rintro a b ⟨hab, hne⟩
  rcases hab with h | ⟨e, h⟩
  · exact Or.inl h
  · refine Or.inr ⟨e, lt_of_le_of_ne h ?_⟩
    intro h2
    exact hne (Prod.ext e h2)

/-- C6 amended: the monthly computation groups by the calendar month of
`Expiration`, orders months chronologically, omits months with no rows, and
divides the unstacked Call column by the Put column under float semantics:
a month having put rows of zero total volume (and positive call volume)
yields the aggregate's `inf` sentinel, but a month with NO put rows at all
yields NaN instead, and a table with no put (or no call) rows anywhere
raises `KeyError` — the whole call fails. -/
theorem C6_monthly_ratios_amended (t : Table Row) (L : List ((ℤ × ℤ) × FVal))
    (rows : List Row) (m : ℤ × ℤ) :
    ((calculate_monthly_call_put_ratios t).2.isOk =
      (t.rows.any (fun r => r.type == some "Call") &&
        t.rows.any (fun r => r.type == some "Put"))) ∧
    ((calculate_monthly_call_put_ratios t).2 = Except.ok L →
      L.map Prod.fst = monthsOf t.rows ∧
      (L.map Prod.fst).Pairwise monthlt ∧
      (∀ mv ∈ L, mv.2 =
        fdivF (cellVal "Call" mv.1 t.rows) (cellVal "Put" mv.1 t.rows)) ∧
      (∀ mm ∈ L.map Prod.fst,
        ∃ r ∈ t.rows, r.type.isSome = true ∧ r.expMonth = mm)) ∧
    (hasCell "Put" m rows = true → volSum "Put" m rows = 0 →
      hasCell "Call" m rows = true → 0 < volSum "Call" m rows →
      fdivF (cellVal "Call" m rows) (cellVal "Put" m rows) = FVal.inf) ∧
    (hasCell "Put" m rows = false →
      fdivF (cellVal "Call" m rows) (cellVal "Put" m rows) = FVal.nan) := by
  refine ⟨?_, ?_, ?_, ?_⟩
  · unfold calculate_monthly_call_put_ratios
    cases h : (t.rows.any (fun r => r.type == some "Call") &&
        t.rows.any (fun r => r.type == some "Put")) with
    | true => simp [h, Except.isOk, Except.toBool]
    | false => simp [h, Except.isOk, Except.toBool]
  · intro hok
    unfold calculate_monthly_call_put_ratios at hok
    by_cases h : (t.rows.any (fun r => r.type == some "Call") &&
        t.rows.any (fun r => r.type == some "Put")) = true
    · rw [if_pos h] at hok
      simp only [Except.ok.injEq] at hok
      subst hok
      refine ⟨?_, ?_, ?_, ?_⟩
      · exact map_pair_fst _ _
      · rw [map_pair_fst]
        exact monthsOf_sorted t.rows
      · intro mv hmv
        rcases List.mem_map.mp hmv with ⟨mm, _, rfl⟩
        rfl
      · intro mm hmm
        rw [map_pair_fst] at hmm
        exact (mem_monthsOf t.rows mm).mp hmm
    · rw [if_neg h] at hok
      cases hok
  · intro hput hz hcall hpos
    unfold cellVal
    rw [if_pos hput, if_pos hcall, hz, fdivF_some_some]
    unfold fdivQ
    rw [if_pos rfl, if_neg (ne_of_gt hpos), if_pos hpos]
  · intro hput
    unfold cellVal
    rw [hput]
    simp [fdivF_none_right]

/-- A Call row with given volume and expiration month. -/
def rowCallM (v : ℚ) (m : ℤ × ℤ) : Row := Row.mk [] 0 0 0 v 0 m 0 (some "Call")

/-- A Put row with given volume and expiration month. -/
def rowPutM (v : ℚ) (m : ℤ × ℤ) : Row := Row.mk [] 0 0 0 v 0 m 0 (some "Put")

/-- Calls in 2024-01 only, puts in 2024-02 only. -/
def tblTwoMonths : Table Row :=
  Table.mk [rowCallM 300 (2024, 1), rowPutM 5 (2024, 2)] []

/-- C6 counterexample: in a table whose calls all expire in 2024-01 and whose
puts all expire in 2024-02, the month 2024-01 has calls and zero put volume,
yet its monthly value is NaN — not the `inf` sentinel the aggregate case
uses. -/
theorem C6_monthly_ratios_counterexample :
    (calculate_monthly_call_put_ratios tblTwoMonths).2.toOption =
      some [((2024, 1), FVal.nan), ((2024, 2), FVal.nan)] ∧
    FVal.nan ≠ FVal.inf := by
  exact ⟨by decide, by decide⟩

theorem linspace_length (a b : ℚ) (n : ℕ) : (linspace a b n).length = n := by
  simp [linspace]

theorem linspace_head (a b : ℚ) (n : ℕ) :
    (linspace a b (n + 1)).head? = some a := by
  unfold linspace
  rw [List.range_succ_eq_map]
  simp

theorem linspace_last (a b : ℚ) : (linspace a b 100).getLast? = some b := by
  unfold linspace
  rw [show (100 : ℕ) = 99 + 1 from rfl, List.range_succ, List.map_append,
    List.map_cons, List.map_nil, List.getLast?_concat]
  norm_num

/-- C7: on a non-empty filtered row set, the surface builder produces a
100×100 regular grid whose x axis spans the min and max of the rows'
`Time to Expiration` and whose y axis spans the caller-supplied strike
bounds transformed by the y encoding `log(strike / current_price)` (not the
data's own strike range); the value matrix is the cubic scattered-data
interpolation of (x, y, implied volatility) onto that grid followed by the
Gaussian blur with sigma = 1. -/
theorem C7_volatility_surface_grid (L : NumLib) (r0 : Row) (rs : List Row)
    (cols : List String) (min_strike max_strike current_price : ℚ) :
    (compute_volatility_surface_plotly L (Table.mk (r0 :: rs) cols)
        min_strike max_strike current_price).2.xi.length = 100 ∧
    (compute_volatility_surface_plotly L (Table.mk (r0 :: rs) cols)
        min_strike max_strike current_price).2.yi.length = 100 ∧
    (compute_volatility_surface_plotly L (Table.mk (r0 :: rs) cols)
        min_strike max_strike current_price).2.xi.head? =
      some (minList ((r0 :: rs).map Row.tte)) ∧
    (compute_volatility_surface_plotly L (Table.mk (r0 :: rs) cols)
        min_strike max_strike current_price).2.xi.getLast? =
      some (maxList ((r0 :: rs).map Row.tte)) ∧
    (compute_volatility_surface_plotly L (Table.mk (r0 :: rs) cols)
        min_strike max_strike current_price).2.yi.head? =
      some (L.log (min_strike / current_price)) ∧
    (compute_volatility_surface_plotly L (Table.mk (r0 :: rs) cols)
        min_strike max_strike current_price).2.yi.getLast? =
      some (L.log (max_strike / current_price)) ∧
    (compute_volatility_surface_plotly L (Table.mk (r0 :: rs) cols)
        min_strike max_strike current_price).2.gx =
      meshgridX
        (compute_volatility_surface_plotly L (Table.mk (r0 :: rs) cols)
          min_strike max_strike current_price).2.xi
        (compute_volatility_surface_plotly L (Table.mk (r0 :: rs) cols)
          min_strike max_strike current_price).2.yi ∧
    (compute_volatility_surface_plotly L (Table.mk (r0 :: rs) cols)
        min_strike max_strike current_price).2.gy =
      meshgridY
        (compute_volatility_surface_plotly L (Table.mk (r0 :: rs) cols)
          min_strike max_strike current_price).2.xi
        (compute_volatility_surface_plotly L (Table.mk (r0 :: rs) cols)
          min_strike max_strike current_price).2.yi ∧
    (compute_volatility_surface_plotly L (Table.mk (r0 :: rs) cols)
        min_strike max_strike current_price).2.gx.length = 100 ∧
    (∀ row ∈ (compute_volatility_surface_plotly L (Table.mk (r0 :: rs) cols)
        min_strike max_strike current_price).2.gx, row.length = 100) ∧
    (compute_volatility_surface_plotly L (Table.mk (r0 :: rs) cols)
        min_strike max_strike current_price).2.gz =
      L.gaussian_filter
        (L.griddata ((r0 :: rs).map Row.tte)
          ((r0 :: rs).map (fun r => L.log (r.strike / current_price)))
          ((r0 :: rs).map Row.impliedVolatility)
          (compute_volatility_surface_plotly L (Table.mk (r0 :: rs) cols)
            min_strike max_strike current_price).2.gx
          (compute_volatility_surface_plotly L (Table.mk (r0 :: rs) cols)
            min_strike max_strike current_price).2.gy
          InterpMethod.cubic) 1 := by
  refine ⟨linspace_length _ _ 100, linspace_length _ _ 100,
    linspace_head _ _ 99, linspace_last _ _, linspace_head _ _ 99,
    linspace_last _ _, rfl, rfl, ?_, ?_, rfl⟩
  · show (meshgridX _ (linspace _ _ 100)).length = 100
    unfold meshgridX
    rw [List.length_map]
    exact linspace_length _ _ 100
  · intro row hrow
    rcases List.mem_map.mp hrow with ⟨yj, _, rfl⟩
    exact linspace_length _ _ 100

/-- An enriched row whose delta is 1 and whose last traded price is 0. -/
def tblLev : Table ERow := Table.mk [ERow.mk (rowCall 1) 1 0 0 0 0] []

/-- C8 amended: leverage is `delta * stock_price / lastPrice` rowwise under
IEEE float semantics: a zero last price raises nothing and silently yields
+inf (positive numerator), -inf (negative numerator) or NaN (0/0); a nonzero
last price yields the exact quotient. -/
theorem C8_leverage_amended (te : Table ERow) (S a b : ℚ) :
    ((calculate_leverage te S).2 =
      te.rows.map (fun r => fdivQ (r.delta * S) r.base.lastPrice)) ∧
    (0 < a → fdivQ a 0 = FVal.inf) ∧
    (a < 0 → fdivQ a 0 = FVal.ninf) ∧
    fdivQ 0 0 = FVal.nan ∧
    (b ≠ 0 → fdivQ a b = FVal.fin (a / b)) := by
  refine ⟨rfl, ?_, ?_, ?_, ?_⟩
  · intro h
    unfold fdivQ
    rw [if_pos rfl, if_neg (ne_of_gt h), if_pos h]
  · intro h
    unfold fdivQ
    rw [if_pos rfl, if_neg (ne_of_lt h), if_neg (asymm h)]
  · norm_num [fdivQ]
  · intro hb
    unfold fdivQ
    rw [if_neg hb]

/-- C8 counterexample: a row with delta 1 and last price 0 at stock price 100
gets the silent float value +inf as its leverage — no failure, no explicit
undefined sentinel, exactly the silent infinity the claim rules out. -/
theorem C8_leverage_counterexample :
    (calculate_leverage tblLev 100).2 = [FVal.inf] := by
  norm_num [calculate_leverage, tblLev, rowCall, fdivQ]

/-- C9 amended: the aggregate-ratio, Greeks-enrichment and surface operations
leave the caller's frame unchanged, but `calculate_leverage` appends a
`Leverage` column and `calculate_monthly_call_put_ratios` appends a `Month`
column to the caller's frame in place; no operation changes the
normalizer-computed row contents. -/
theorem C9_frame_effects_amended (P : Prims) (L : NumLib) (t : Table Row)
    (te : Table ERow) (S r mn mx cp : ℚ) :
    (calculate_call_put_ratio t).1 = t ∧
    (add_greeks_to_options_data P t S r).1 = t ∧
    (compute_volatility_surface_plotly L t mn mx cp).1 = t ∧
    (calculate_leverage te S).1 = addColumn "Leverage" te ∧
    (calculate_monthly_call_put_ratios t).1 = addColumn "Month" t ∧
    (addColumn "Leverage" te).rows = te.rows ∧
    (addColumn "Month" t).rows = t.rows := by
  refine ⟨rfl, rfl, rfl, rfl, rfl, ?_, ?_⟩
  · unfold addColumn
    split <;> rfl
  · unfold addColumn
    split <;> rfl

/-- An empty canonical table with no extra columns. -/
def tblEmpty : Table Row := Table.mk [] []

/-- C9 counterexample: after `calculate_monthly_call_put_ratios` the caller's
frame is NOT the one passed in — a `Month` column has been added in place. -/
theorem C9_frame_effects_counterexample :
    (calculate_monthly_call_put_ratios tblEmpty).1 ≠ tblEmpty := by
  decide
